import Mathlib

/-!
Verification of the Gmail MCP server attachment / body-extraction core
(`main.go`).  The Go data structures and functions are shallowly embedded
as Lean definitions; external libraries (base64 from `encoding/base64`,
the html-to-markdown converter, the PDF reader) are abstracted as
function parameters or pre-opened values, while all repository logic is
translated line-by-line from the source.
-/

namespace GmailMCP

/-- Embeds `gmail.MessagePartBody`: `AttachmentId`, `Size` (int64) and the
base64-encoded `Data` field.  The Go code only ever reads these three
fields. -/
structure PartBody where
  attachmentId : String
  size : Int
  data : String
deriving Repr, DecidableEq

/-- Embeds `gmail.MessagePart`: the declared `MimeType`, `Filename`, the
optional `Body` (a nil pointer becomes `none`) and the list of child
`Parts`. -/
inductive MessagePart : Type where
  | mk (mimeType : String) (filename : String) (body : Option PartBody)
       (parts : List MessagePart) : MessagePart

def MessagePart.mimeType : MessagePart → String
  | .mk m _ _ _ => m

def MessagePart.filename : MessagePart → String
  | .mk _ f _ _ => f

def MessagePart.body : MessagePart → Option PartBody
  | .mk _ _ b _ => b

def MessagePart.parts : MessagePart → List MessagePart
  | .mk _ _ _ ps => ps

/-- Embeds the fields of `gmail.Message` that the extraction core reads:
only the `Payload` tree (a nil payload becomes `none`). -/
structure GmailMessage where
  payload : Option MessagePart

/-- Embeds `decodeEmailContent` (main.go lines 1144-1155), parameterized
by the two standard-library base64 decoders (`base64.URLEncoding` and
`base64.StdEncoding`, external to the repository): try URL-safe decoding
first, fall back to standard decoding, fail when both fail. -/
def decodeEmailContent (urlDecode stdDecode : String → Option String)
    (data : String) : Option String :=
  match urlDecode data with
  | some decoded => some decoded
  | none => stdDecode data

/-! ### Models of the Go `strings` helpers

The Go code uses `strings.TrimSpace`, `strings.Fields`, `strings.Join`,
`strings.ToLower`, `strings.HasPrefix` and `strings.HasSuffix`.  They are
modeled structurally over character lists (ASCII whitespace and ASCII
case mapping — every string the repository feeds them in the verified
paths is ASCII) so that every definition evaluates by kernel
reduction. -/

/-- ASCII whitespace, as used by the Go code paths under scrutiny. -/
def isSpaceChar (c : Char) : Bool :=
  c = ' ' || c = '\t' || c = '\n' || c = '\r'

/-- Embeds `strings.TrimSpace`: drop whitespace from both ends. -/
def trimString (s : String) : String :=
  String.mk ((((s.data.dropWhile isSpaceChar).reverse).dropWhile
    isSpaceChar).reverse)

def charsStartWith : List Char → List Char → Bool
  | [], _ => true
  | _ :: _, [] => false
  | p :: ps, c :: cs => p = c && charsStartWith ps cs

/-- Embeds `strings.HasPrefix`. -/
def strStartsWith (s pat : String) : Bool :=
  charsStartWith pat.data s.data

/-- Embeds `strings.HasSuffix`. -/
def strEndsWith (s pat : String) : Bool :=
  charsStartWith pat.data.reverse s.data.reverse

/-- ASCII lower-casing of one character. -/
def lowerChar (c : Char) : Char :=
  if 'A' ≤ c ∧ c ≤ 'Z' then Char.ofNat (c.toNat + 32) else c

/-- Embeds `strings.ToLower` (ASCII). -/
def strToLower (s : String) : String :=
  String.mk (s.data.map lowerChar)

def splitFieldsAux (p : Char → Bool) : List Char → List Char → List (List Char)
  | [], acc => [acc.reverse]
  | c :: cs, acc =>
    if p c then acc.reverse :: splitFieldsAux p cs []
    else splitFieldsAux p cs (c :: acc)

/-- Embeds `strings.Fields`: maximal runs of non-whitespace characters. -/
def stringFields (s : String) : List String :=
  ((splitFieldsAux isSpaceChar s.data []).map String.mk).filter
    (fun t => t ≠ "")

/-- Embeds `strings.Join`. -/
def joinWith (sep : String) : List String → String
  | [] => ""
  | [x] => x
  | x :: xs => x ++ sep ++ joinWith sep xs

/-- Embeds `extractTextAndLinksFromHTML` (main.go lines 1158-1167),
parameterized by the external `htmltomarkdown.ConvertString` library
function (`convert`, returning `none` on conversion error): on failure
the HTML is returned as-is, on success the markdown is returned after
`strings.TrimSpace`. -/
def extractTextAndLinksFromHTML (convert : String → Option String)
    (htmlContent : String) : String :=
  match convert htmlContent with
  | none => htmlContent
  | some markdown => trimString markdown

/-- Embeds the body-handling prefix of the `extractFromParts` loop body
(main.go lines 1111-1128): when `part.Body != nil && part.Body.Data != ""`
the data is decoded — a decode error executes `continue`, returned here
as `none`; on success (or when there is no inline data) the updated pair
of slots is returned, each slot being filled by the decoded text only
when the declared kind matches and the slot is still empty. -/
def partSlotStep (decode : String → Option String) (mimeType : String)
    (body : Option PartBody) (plainText htmlText : String) :
    Option (String × String) :=
  match body with
  | some b =>
    if b.data ≠ "" then
      match decode b.data with
      | none => none
      | some decoded =>
        some ((if mimeType = "text/plain" ∧ plainText = ""
               then decoded else plainText),
              (if mimeType = "text/html" ∧ htmlText = ""
               then decoded else htmlText))
    else some (plainText, htmlText)
  | none => some (plainText, htmlText)

/-- Embeds the conditional assignments
`if plainText == "" && nestedPlain != "" { plainText = nestedPlain }`
(main.go lines 1134-1139): the slot takes the nested value only when the
slot is empty and the nested value is not. -/
def slotFill (cur nested : String) : String :=
  if cur = "" ∧ nested ≠ "" then nested else cur

/-- Embeds the loop of `extractFromParts` (main.go lines 1109-1141).  The
Go function ranges over `parts` mutating the named results
`plainText, htmlText`; here they are threaded as accumulators.  For each
part the inline body is handled by `partSlotStep`; a decode failure
(`continue` in the source) moves to the next sibling WITHOUT visiting the
children of this part; otherwise nested parts are visited recursively and
may fill slots that are still empty. -/
def extractFromPartsAux (decode : String → Option String) :
    List MessagePart → String → String → String × String
  | [], plainText, htmlText => (plainText, htmlText)
  | .mk mimeType _ body children :: rest, plainText, htmlText =>
    match partSlotStep decode mimeType body plainText htmlText with
    | none => extractFromPartsAux decode rest plainText htmlText
    | some (pl, ht) =>
      match (if children.isEmpty then (("" : String), ("" : String))
             else extractFromPartsAux decode children "" "") with
      | (nestedPlain, nestedHTML) =>
        extractFromPartsAux decode rest
          (slotFill pl nestedPlain) (slotFill ht nestedHTML)

/-- Embeds `extractFromParts` (main.go lines 1109-1141): both named
results start out empty. -/
def extractFromParts (decode : String → Option String)
    (parts : List MessagePart) : String × String :=
  extractFromPartsAux decode parts "" ""

/-- Embeds `extractEmailBody` (main.go lines 1069-1106): decode the
top-level inline body (classified as HTML exactly when the payload
MimeType is "text/html", as plain text otherwise), then let non-empty
results of `extractFromParts` replace the top-level values, and finally
prefer HTML (normalized) over plain text. -/
def extractEmailBody (decode : String → Option String)
    (convert : String → Option String) (msg : GmailMessage) : String :=
  match msg.payload with
  | none => ""
  | some payload =>
    let top : String × String :=
      match payload.body with
      | some b =>
        if b.data ≠ "" then
          match decode b.data with
          | some decoded =>
            if payload.mimeType = "text/html" then ("", decoded)
            else (decoded, "")
          | none => ("", "")
        else ("", "")
      | none => ("", "")
    let resolved : String × String :=
      if payload.parts.length > 0 then
        let fromParts := extractFromParts decode payload.parts
        ((if fromParts.1 ≠ "" then fromParts.1 else top.1),
         (if fromParts.2 ≠ "" then fromParts.2 else top.2))
      else top
    if resolved.2 ≠ "" then extractTextAndLinksFromHTML convert resolved.2
    else resolved.1

/-! ### Specification-side descriptions of the part tree

The following definitions are NOT translations of repository functions;
they state, directly from the spec wording, what "the occurrences of a
kind in depth-first document order" are, so that the traversal functions
above can be compared against them. -/

/-- Spec side: the candidate content a single part itself contributes for
the given kind — its decoded inline payload when the part is declared as
that kind, carries non-empty `bodyData`, the data decodes, and the
decoded text is non-empty; nothing otherwise. -/
def partCandidates (decode : String → Option String)
    (kind mimeType : String) (body : Option PartBody) : List String :=
  match body with
  | some b =>
    if b.data ≠ "" then
      match decode b.data with
      | some d => if mimeType = kind ∧ d ≠ "" then [d] else []
      | none => []
    else []
  | none => []

/-- Spec side: the non-empty decoded inline payloads of parts of the
given declared kind, listed in depth-first document order (a part before
its children, children before later siblings).  No subtree is ever
pruned. -/
def partsTexts (decode : String → Option String) (kind : String) :
    List MessagePart → List String
  | [] => []
  | .mk mimeType _ body children :: rest =>
    partCandidates decode kind mimeType body ++
    partsTexts decode kind children ++ partsTexts decode kind rest

/-- Spec side: the optional inline body either has no data or its data
decodes successfully. -/
def bodyDecodes (decode : String → Option String) : Option PartBody → Bool
  | some b => b.data = "" || (decode b.data).isSome
  | none => true

/-- Spec side: every part of the forest that carries non-empty inline
`bodyData` decodes successfully. -/
def allDecodable (decode : String → Option String) : List MessagePart → Bool
  | [] => true
  | .mk _ _ body children :: rest =>
    bodyDecodes decode body
    && allDecodable decode children && allDecodable decode rest

/-- First-non-empty choice: keep `a` when it is non-empty, else `b`. -/
def strOr (a b : String) : String := if a = "" then b else a

theorem strOr_empty_right (a : String) : strOr a "" = a := by
  unfold strOr; split <;> simp_all

theorem strOr_empty_left (b : String) : strOr "" b = b := by
  simp [strOr]

theorem strOr_assoc (a b c : String) :
    strOr (strOr a b) c = strOr a (strOr b c) := by
  by_cases ha : a = "" <;> by_cases hb : b = "" <;> simp [strOr, ha, hb]

/-- Every candidate contributed by a single part is non-empty. -/
theorem partCandidates_ne_empty (decode : String → Option String)
    (kind mimeType : String) (body : Option PartBody) :
    ∀ s ∈ partCandidates decode kind mimeType body, s ≠ "" := by
  intro s hs
  unfold partCandidates at hs
  split at hs
  · split at hs
    · split at hs
      · split at hs
        · simp only [List.mem_singleton] at hs
          subst hs
          rename_i h
          exact h.2
        · simp at hs
      · simp at hs
    · simp at hs
  · simp at hs

/-- Every string collected by `partsTexts` is non-empty. -/
theorem partsTexts_ne_empty (decode : String → Option String) (kind : String) :
    ∀ ps : List MessagePart, ∀ s ∈ partsTexts decode kind ps, s ≠ "" := by
  intro ps
  induction ps using partsTexts.induct decode kind with
  | case1 => intro s hs; simp only [partsTexts, List.not_mem_nil] at hs
  | case2 mimeType fn body children rest ih1 ih2 =>
    intro s hs
    rw [partsTexts.eq_def] at hs
    simp only [List.mem_append] at hs
    rcases hs with (hs | hs) | hs
    · exact partCandidates_ne_empty decode kind mimeType body s hs
    · exact ih1 s hs
    · exact ih2 s hs

theorem headD_append_strOr (a b : List String) (h : ∀ s ∈ a, s ≠ "") :
    (a ++ b).headD "" = strOr (a.headD "") (b.headD "") := by
  cases a with
  | nil => simp [strOr]
  | cons x xs =>
    have hx : x ≠ "" := h x (List.mem_cons_self x xs)
    simp [strOr, hx]

theorem slotFill_eq_strOr (a b : String) : slotFill a b = strOr a b := by
  by_cases ha : a = "" <;> by_cases hb : b = "" <;> simp [slotFill, strOr, ha, hb]

theorem slotFill_of_ne (a b : String) (h : a ≠ "") : slotFill a b = a := by
  simp [slotFill, h]

/-- `partSlotStep` signals a `continue` exactly when the part carries
non-empty inline data that fails to decode. -/
theorem partSlotStep_none_iff (decode : String → Option String)
    (mimeType : String) (body : Option PartBody) (pl ht : String) :
    partSlotStep decode mimeType body pl ht = none ↔
      ∃ b, body = some b ∧ b.data ≠ "" ∧ decode b.data = none := by
  unfold partSlotStep
  cases body with
  | none => simp
  | some b =>
    by_cases hd : b.data = ""
    · simp [hd]
    · cases hdec : decode b.data <;> simp [hd, hdec]

/-- A part whose body decodes never makes `partSlotStep` signal
`continue`. -/
theorem partSlotStep_ne_none (decode : String → Option String)
    (mimeType : String) (body : Option PartBody) (pl ht : String)
    (h : bodyDecodes decode body = true) :
    partSlotStep decode mimeType body pl ht ≠ none := by
  intro hn
  rw [partSlotStep_none_iff] at hn
  obtain ⟨b, rfl, hd, hdec⟩ := hn
  simp [bodyDecodes, hd, hdec] at h

/-- Characterizes the slot pair produced by `partSlotStep` in terms of
the candidate list of the part (spec side): each slot is its previous
value when non-empty, else the part candidate of its kind. -/
theorem partSlotStep_some_spec (decode : String → Option String)
    (mimeType : String) (body : Option PartBody) (pl ht pl1 ht1 : String)
    (h : partSlotStep decode mimeType body pl ht = some (pl1, ht1)) :
    pl1 = strOr pl ((partCandidates decode "text/plain" mimeType body).headD "") ∧
    ht1 = strOr ht ((partCandidates decode "text/html" mimeType body).headD "") := by
  unfold partSlotStep at h
  unfold partCandidates
  cases body with
  | none =>
    simp only [Option.some.injEq, Prod.mk.injEq] at h
    simp [← h.1, ← h.2, strOr_empty_right]
  | some b =>
    by_cases hd : b.data = ""
    · simp only [hd, ne_eq, not_true_eq_false, if_false, reduceIte,
        Option.some.injEq, Prod.mk.injEq] at h
      simp [hd, ← h.1, ← h.2, strOr_empty_right]
    · cases hdec : decode b.data with
      | none => simp [hd, hdec] at h
      | some decoded =>
        simp only [hd, hdec, ne_eq, not_false_eq_true, if_true, reduceIte,
          Option.some.injEq, Prod.mk.injEq] at h
        constructor
        · rw [← h.1]
          by_cases hmt : mimeType = "text/plain" <;>
            by_cases hpl : pl = "" <;>
              by_cases hde : decoded = "" <;>
                simp [strOr, hmt, hpl, hde, hd, hdec]
        · rw [← h.2]
          by_cases hmt : mimeType = "text/html" <;>
            by_cases hpl : ht = "" <;>
              by_cases hde : decoded = "" <;>
                simp [strOr, hmt, hpl, hde, hd, hdec]

theorem partsTexts_cons (decode : String → Option String) (kind : String)
    (mt fn : String) (body : Option PartBody)
    (children rest : List MessagePart) :
    partsTexts decode kind (MessagePart.mk mt fn body children :: rest) =
      partCandidates decode kind mt body ++
      partsTexts decode kind children ++ partsTexts decode kind rest := by
  rw [partsTexts.eq_def]

theorem headD_mem (l : List String) (h : l.headD "" ≠ "") :
    l.headD "" ∈ l := by
  cases l with
  | nil => simp at h
  | cons x xs => simp

/-- The pair traversal never overwrites the plain-text slot once
filled. -/
theorem extractFromPartsAux_fst_filled (decode : String → Option String) :
    ∀ (ps : List MessagePart) (pl ht : String), pl ≠ "" →
      (extractFromPartsAux decode ps pl ht).1 = pl := by
  intro ps pl ht
  induction ps, pl, ht using extractFromPartsAux.induct decode with
  | case1 pl ht => intro _; simp [extractFromPartsAux]
  | case2 mt fn body children rest pl ht hstep ih =>
    intro h
    simp only [extractFromPartsAux, hstep]
    exact ih h
  | case3 mt fn body children rest pl ht pl1 ht1 hstep np nh hnest ihc ihr =>
    intro h
    have hpl1 : pl1 = pl := by
      have hs := (partSlotStep_some_spec decode mt body pl ht pl1 ht1 hstep).1
      simp [hs, strOr, h]
    have hfill : slotFill pl1 np = pl := by
      rw [hpl1]; exact slotFill_of_ne pl np h
    simp only [dite_eq_ite] at hnest
    simp only [extractFromPartsAux, hstep, hnest]
    rw [hfill] at ihr ⊢
    exact ihr h

/-- The pair traversal never overwrites the HTML slot once filled. -/
theorem extractFromPartsAux_snd_filled (decode : String → Option String) :
    ∀ (ps : List MessagePart) (pl ht : String), ht ≠ "" →
      (extractFromPartsAux decode ps pl ht).2 = ht := by
  intro ps pl ht
  induction ps, pl, ht using extractFromPartsAux.induct decode with
  | case1 pl ht => intro _; simp [extractFromPartsAux]
  | case2 mt fn body children rest pl ht hstep ih =>
    intro h
    simp only [extractFromPartsAux, hstep]
    exact ih h
  | case3 mt fn body children rest pl ht pl1 ht1 hstep np nh hnest ihc ihr =>
    intro h
    have hht1 : ht1 = ht := by
      have hs := (partSlotStep_some_spec decode mt body pl ht pl1 ht1 hstep).2
      simp [hs, strOr, h]
    have hfill : slotFill ht1 nh = ht := by
      rw [hht1]; exact slotFill_of_ne ht nh h
    simp only [dite_eq_ite] at hnest
    simp only [extractFromPartsAux, hstep, hnest]
    rw [hfill] at ihr ⊢
    exact ihr h

theorem nestedPair_eq (decode : String → Option String)
    (children : List MessagePart) :
    (if children.isEmpty then (("" : String), ("" : String))
     else extractFromPartsAux decode children "" "") =
      extractFromParts decode children := by
  by_cases he : children.isEmpty
  · have h := List.isEmpty_iff.mp he
    subst h
    rw [if_pos he, extractFromParts]
    simp [extractFromPartsAux]
  · rw [if_neg he, extractFromParts]

/-- Refinement: when every inline payload in the forest decodes, the
traversal computes, for each slot, its previous value when already
filled, else the first candidate of its kind in depth-first document
order. -/
theorem extractFromPartsAux_spec (decode : String → Option String) :
    ∀ (ps : List MessagePart) (pl ht : String),
      allDecodable decode ps = true →
      extractFromPartsAux decode ps pl ht =
        (strOr pl ((partsTexts decode "text/plain" ps).headD ""),
         strOr ht ((partsTexts decode "text/html" ps).headD "")) := by
  intro ps pl ht
  induction ps, pl, ht using extractFromPartsAux.induct decode with
  | case1 pl ht =>
    intro _
    simp [extractFromPartsAux, partsTexts, strOr_empty_right]
  | case2 mt fn body children rest pl ht hstep ih =>
    intro hall
    simp only [allDecodable, Bool.and_eq_true] at hall
    exact absurd hstep (partSlotStep_ne_none decode mt body pl ht hall.1.1)
  | case3 mt fn body children rest pl ht pl1 ht1 hstep np nh hnest ihc ihr =>
    intro hall
    simp only [allDecodable, Bool.and_eq_true] at hall
    obtain ⟨⟨hb, hc⟩, hr⟩ := hall
    have hnest2 : (np, nh) =
        ((partsTexts decode "text/plain" children).headD "",
         (partsTexts decode "text/html" children).headD "") := by
      rw [← hnest]
      by_cases he : children.isEmpty
      · have : children = [] := List.isEmpty_iff.mp he
        subst this
        simp [partsTexts]
      · simp only [he, if_false, reduceIte]
        rw [ihc hc]
        simp [strOr_empty_left]
    have hnp : np = (partsTexts decode "text/plain" children).headD "" := by
      have := congrArg Prod.fst hnest2; simpa using this
    have hnh : nh = (partsTexts decode "text/html" children).headD "" := by
      have := congrArg Prod.snd hnest2; simpa using this
    have hpl1 := (partSlotStep_some_spec decode mt body pl ht pl1 ht1 hstep).1
    have hht1 := (partSlotStep_some_spec decode mt body pl ht pl1 ht1 hstep).2
    simp only [dite_eq_ite] at hnest
    simp only [extractFromPartsAux, hstep, hnest]
    rw [ihr hr]
    have tp : ∀ kind, partsTexts decode kind
          (MessagePart.mk mt fn body children :: rest) =
        partCandidates decode kind mt body ++
        partsTexts decode kind children ++
        partsTexts decode kind rest := fun kind => by rw [partsTexts.eq_def]
    have hmem1 : ∀ kind, ∀ s ∈ partCandidates decode kind mt body ++
        partsTexts decode kind children, s ≠ "" := by
      intro kind s hs
      rcases List.mem_append.mp hs with hs | hs
      · exact partCandidates_ne_empty decode kind mt body s hs
      · exact partsTexts_ne_empty decode kind children s hs
    rw [tp, tp]
    rw [headD_append_strOr _ _ (hmem1 "text/plain"),
        headD_append_strOr _ _ (partCandidates_ne_empty decode "text/plain" mt body),
        headD_append_strOr _ _ (hmem1 "text/html"),
        headD_append_strOr _ _ (partCandidates_ne_empty decode "text/html" mt body)]
    simp only [slotFill_eq_strOr, hpl1, hht1, hnp, hnh, strOr_assoc]

/-- Soundness: without any hypothesis on decodability, the plain-text
slot computed by the traversal is either its initial value or one of the
document-order candidates of kind "text/plain" (the traversal may skip
candidates, but never invents values). -/
theorem extractFromPartsAux_fst_sound (decode : String → Option String) :
    ∀ (ps : List MessagePart) (pl ht : String),
      (extractFromPartsAux decode ps pl ht).1 = pl ∨
      (extractFromPartsAux decode ps pl ht).1 ∈
        partsTexts decode "text/plain" ps := by
  intro ps pl ht
  induction ps, pl, ht using extractFromPartsAux.induct decode with
  | case1 pl ht => left; simp [extractFromPartsAux]
  | case2 mt fn body children rest pl ht hstep ih =>
    simp only [extractFromPartsAux, hstep]
    rcases ih with ih | ih
    · left; exact ih
    · right; rw [partsTexts_cons]; simp only [List.mem_append]; right
      exact ih
  | case3 mt fn body children rest pl ht pl1 ht1 hstep np nh hnest ihc ihr =>
    simp only [dite_eq_ite] at hnest
    simp only [extractFromPartsAux, hstep, hnest]
    have hval : slotFill pl1 np = pl ∨
        slotFill pl1 np ∈
          partsTexts decode "text/plain"
            (MessagePart.mk mt fn body children :: rest) := by
      rw [slotFill_eq_strOr]
      by_cases hpl1e : pl1 = ""
      · subst hpl1e
        rw [strOr_empty_left]
        by_cases hnp : np = ""
        · subst hnp
          have hpl1 := (partSlotStep_some_spec decode mt body pl ht
            "" ht1 hstep).1
          by_cases hple : pl = ""
          · left; exact hple.symm
          · exfalso; simp [strOr, hple] at hpl1; exact hple hpl1.symm
        · right
          have hnpv : np = (extractFromPartsAux decode children "" "").1 := by
            by_cases he : children.isEmpty
            · simp [he] at hnest
              exact absurd hnest.1.symm hnp
            · rw [if_neg he] at hnest
              rw [hnest]
          rcases ihc with hcs | hcs
          · exact absurd (hnpv.trans hcs) hnp
          · rw [partsTexts_cons]
            simp only [List.mem_append]
            left; right
            rw [hnpv]; exact hcs
      · rw [strOr]
        simp only [hpl1e, if_false, reduceIte]
        have hpl1 := (partSlotStep_some_spec decode mt body pl ht
          pl1 ht1 hstep).1
        by_cases hple : pl = ""
        · right
          rw [partsTexts_cons]
          simp only [List.mem_append]
          left; left
          rw [hpl1, hple, strOr_empty_left]
          apply headD_mem
          rw [hpl1, hple, strOr_empty_left] at hpl1e
          exact hpl1e
        · left
          rw [hpl1]
          simp [strOr, hple]
    rcases ihr with ih | ih
    · rw [ih]; exact hval
    · right; rw [partsTexts_cons]; simp only [List.mem_append]; right
      exact ih

/-- Soundness: without any hypothesis on decodability, the HTML slot
computed by the traversal is either its initial value or one of the
document-order candidates of kind "text/html". -/
theorem extractFromPartsAux_snd_sound (decode : String → Option String) :
    ∀ (ps : List MessagePart) (pl ht : String),
      (extractFromPartsAux decode ps pl ht).2 = ht ∨
      (extractFromPartsAux decode ps pl ht).2 ∈
        partsTexts decode "text/html" ps := by
  intro ps pl ht
  induction ps, pl, ht using extractFromPartsAux.induct decode with
  | case1 pl ht => left; simp [extractFromPartsAux]
  | case2 mt fn body children rest pl ht hstep ih =>
    simp only [extractFromPartsAux, hstep]
    rcases ih with ih | ih
    · left; exact ih
    · right; rw [partsTexts_cons]; simp only [List.mem_append]; right
      exact ih
  | case3 mt fn body children rest pl ht pl1 ht1 hstep np nh hnest ihc ihr =>
    simp only [dite_eq_ite] at hnest
    simp only [extractFromPartsAux, hstep, hnest]
    have hval : slotFill ht1 nh = ht ∨
        slotFill ht1 nh ∈
          partsTexts decode "text/html"
            (MessagePart.mk mt fn body children :: rest) := by
      rw [slotFill_eq_strOr]
      by_cases hht1e : ht1 = ""
      · subst hht1e
        rw [strOr_empty_left]
        by_cases hnh : nh = ""
        · subst hnh
          have hht1 := (partSlotStep_some_spec decode mt body pl ht
            pl1 "" hstep).2
          by_cases hhte : ht = ""
          · left; exact hhte.symm
          · exfalso; simp [strOr, hhte] at hht1; exact hhte hht1.symm
        · right
          have hnhv : nh = (extractFromPartsAux decode children "" "").2 := by
            by_cases he : children.isEmpty
            · simp [he] at hnest
              exact absurd hnest.2.symm hnh
            · rw [if_neg he] at hnest
              rw [hnest]
          rcases ihc with hcs | hcs
          · exact absurd (hnhv.trans hcs) hnh
          · rw [partsTexts_cons]
            simp only [List.mem_append]
            left; right
            rw [hnhv]; exact hcs
      · rw [strOr]
        simp only [hht1e, if_false, reduceIte]
        have hht1 := (partSlotStep_some_spec decode mt body pl ht
          pl1 ht1 hstep).2
        by_cases hhte : ht = ""
        · right
          rw [partsTexts_cons]
          simp only [List.mem_append]
          left; left
          rw [hht1, hhte, strOr_empty_left]
          apply headD_mem
          rw [hht1, hhte, strOr_empty_left] at hht1e
          exact hht1e
        · left
          rw [hht1]
          simp [strOr, hhte]
    rcases ihr with ih | ih
    · rw [ih]; exact hval
    · right; rw [partsTexts_cons]; simp only [List.mem_append]; right
      exact ih

/-! ### Attachment descriptors and attachment lookup -/

/-- Embeds `isExtractableDocument` (main.go lines 1216-1232): a document
is extractable when its MIME type is PDF, the DOCX wordprocessingml type
or plain text, or — as a fallback — when its lowercased filename ends in
".pdf", ".docx" or ".txt". -/
def isExtractableDocument (mimeType filename : String) : Bool :=
  if mimeType = "application/pdf" then true
  else if mimeType =
      "application/vnd.openxmlformats-officedocument.wordprocessingml.document"
    then true
  else if mimeType = "text/plain" then true
  else
    (strEndsWith (strToLower filename) ".pdf" ||
     strEndsWith (strToLower filename) ".docx" ||
     strEndsWith (strToLower filename) ".txt")

/-- Embeds the attachment map built by `extractAttachmentsFromParts`
(main.go lines 1190-1204): the Go code builds a
Go string-keyed map with keys `attachmentId`, `filename`,
`mimeType`, `size`, plus the key `extractable` (always `true`) that is
inserted only when `isExtractableDocument` holds; the conditional key is
embedded as an `Option Bool` that is `none` when the key is absent. -/
structure AttachmentDescriptor where
  attachmentId : String
  filename : String
  mimeType : String
  size : Int
  extractable : Option Bool
deriving Repr, DecidableEq

/-- Embeds the descriptor construction of `extractAttachmentsFromParts`
(main.go lines 1186-1204): the filename defaults to
"unnamed_attachment" when empty, and that defaulted filename is what
`isExtractableDocument` receives. -/
def mkAttachmentDescriptor (mimeType partFilename : String)
    (b : PartBody) : AttachmentDescriptor :=
  { attachmentId := b.attachmentId
    filename := if partFilename = "" then "unnamed_attachment" else partFilename
    mimeType := mimeType
    size := b.size
    extractable :=
      if isExtractableDocument mimeType
          (if partFilename = "" then "unnamed_attachment" else partFilename)
      then some true else none }

/-- Embeds the attachment test plus append of the loop body of
`extractAttachmentsFromParts` (main.go lines 1186-1204): a part
contributes a descriptor exactly when
`part.Body != nil && part.Body.AttachmentId != ""`. -/
def partAttachment (mimeType filename : String) :
    Option PartBody → List AttachmentDescriptor
  | some b =>
    if b.attachmentId ≠ "" then [mkAttachmentDescriptor mimeType filename b]
    else []
  | none => []

/-- Embeds `extractAttachmentsFromParts` (main.go lines 1184-1213): the
Go function appends into a shared slice through a pointer; the slice is
threaded here as an accumulator.  Every part is visited: first the part
itself may contribute a descriptor, then its children are visited, then
the later siblings. -/
def extractAttachmentsFromParts :
    List MessagePart → List AttachmentDescriptor → List AttachmentDescriptor
  | [], attachments => attachments
  | .mk mimeType filename body children :: rest, attachments =>
    extractAttachmentsFromParts rest
      (if children.isEmpty then
        attachments ++ partAttachment mimeType filename body
       else
        extractAttachmentsFromParts children
          (attachments ++ partAttachment mimeType filename body))

/-- Embeds `extractAttachmentInfo` (main.go lines 1170-1181): a nil
payload yields no attachments; otherwise ONLY the payload children
(`message.Payload.Parts`) are walked — the payload part itself is never
examined. -/
def extractAttachmentInfo (msg : GmailMessage) : List AttachmentDescriptor :=
  match msg.payload with
  | none => []
  | some payload => extractAttachmentsFromParts payload.parts []

/-- Embeds the body test of `findAttachmentPart` (main.go line 1292):
`part.Body != nil && part.Body.AttachmentId == attachmentID`. -/
def partHasRef (ref : String) : MessagePart → Bool
  | .mk _ _ body _ =>
    match body with
    | some b => b.attachmentId = ref
    | none => false

/-- Embeds `findAttachmentPart` (main.go lines 1290-1300).  The Go
function writes the found part through a `**gmail.MessagePart`
out-pointer; the pointer content is threaded here as `result`.  A direct
match returns from the current invocation only, so a match produced by a
nested recursive call does NOT stop the enclosing loop, which may later
overwrite the pointer. -/
def findAttachmentPartAux (attachmentID : String) :
    List MessagePart → Option MessagePart → Option MessagePart
  | [], result => result
  | .mk mt fn body children :: rest, result =>
    if partHasRef attachmentID (.mk mt fn body children) then
      some (.mk mt fn body children)
    else
      findAttachmentPartAux attachmentID rest
        (if children.isEmpty then result
         else findAttachmentPartAux attachmentID children result)

/-- Embeds the call site of `findAttachmentPart` (main.go line 1252):
the search starts from the payload children with a nil out-pointer. -/
def findAttachmentPart (parts : List MessagePart)
    (attachmentID : String) : Option MessagePart :=
  findAttachmentPartAux attachmentID parts none

/-! Spec-side descriptions of the attachment walks. -/

/-- Spec side: all parts of a forest in depth-first document order (a
part before its children, children before later siblings). -/
def allParts : List MessagePart → List MessagePart
  | [] => []
  | .mk mt fn body children :: rest =>
    .mk mt fn body children :: (allParts children ++ allParts rest)

/-- Spec side: the descriptor of a part, present exactly when the part
carries an attachment reference. -/
def descOf : MessagePart → Option AttachmentDescriptor
  | .mk mt fn body _ =>
    match body with
    | some b =>
      if b.attachmentId ≠ "" then some (mkAttachmentDescriptor mt fn b)
      else none
    | none => none

/-- Spec side: some part of the forest carries the reference. -/
def existsRefPart (ref : String) : List MessagePart → Bool
  | [] => false
  | .mk mt fn body children :: rest =>
    partHasRef ref (.mk mt fn body children) || existsRefPart ref children ||
    existsRefPart ref rest

/-- Spec side (from the spec wording of
`findPartByAttachmentReference`): the FIRST part in depth-first document
order whose attachment reference equals `ref`. -/
def dfsFirstByRef (ref : String) : List MessagePart → Option MessagePart
  | [] => none
  | .mk mt fn body children :: rest =>
    if partHasRef ref (.mk mt fn body children) then
      some (.mk mt fn body children)
    else
      match dfsFirstByRef ref children with
      | some p => some p
      | none => dfsFirstByRef ref rest

/-! ### PDF extraction -/

/-- The outcome the external PDF library reports for one page of an
opened document: a null page (`page.V.IsNull()`), a `GetPlainText`
error, or extracted page text. -/
inductive PdfPage where
  | nullPage
  | extractErr
  | text (s : String)
deriving Repr, DecidableEq

/-- An opened PDF document as seen through the external `pdf` library:
the ordered list of per-page outcomes (`NumPage` is its length). -/
structure PdfDoc where
  pages : List PdfPage
deriving Repr, DecidableEq

/-- The page yielded extracted text (possibly empty text). -/
def pageYieldsText : PdfPage → Bool
  | .text _ => true
  | _ => false

/-- Embeds the loop body of `extractPDFText` (main.go lines 1345-1360):
a null page or a failed page contributes nothing (`continue`); a page
with text contributes the text followed by a blank line. -/
def pdfPageChunk : PdfPage → String
  | .text s => s ++ "\n\n"
  | _ => ""

/-- Embeds `extractPDFText` (main.go lines 1326-1372) from the point
where the PDF reader has been opened: process at most the first 50
pages, concatenate the per-page chunks, fail when the concatenation is
empty, and append a truncation notice when the document has more than 50
pages. -/
def extractPDFText (doc : PdfDoc) : Except String String :=
  let numPages := doc.pages.length
  let maxPages := if numPages > 50 then 50 else numPages
  let extractedText := String.join ((doc.pages.take maxPages).map pdfPageChunk)
  if extractedText.length = 0 then
    Except.error "no text could be extracted from PDF"
  else if numPages > 50 then
    Except.ok (extractedText ++ "\n\n[Note: PDF has " ++ toString numPages ++
      " pages total, but only first 50 pages were processed for safety]")
  else Except.ok extractedText

/-! ### Lemmas about the attachment walks -/

theorem filterMap_allParts_cons (mt fn : String) (body : Option PartBody)
    (children rest : List MessagePart) :
    (allParts (.mk mt fn body children :: rest)).filterMap descOf =
      partAttachment mt fn body ++ (allParts children).filterMap descOf ++
      (allParts rest).filterMap descOf := by
  rw [allParts]
  simp only [List.filterMap_cons, List.filterMap_append]
  cases body with
  | none => simp [descOf, partAttachment]
  | some b =>
    by_cases hb : b.attachmentId = ""
    · simp [descOf, partAttachment, hb]
    · simp [descOf, partAttachment, hb]

/-- The accumulator-threaded walk appends exactly the descriptors of
the reference-carrying parts, in depth-first document order. -/
theorem extractAttachmentsFromParts_spec :
    ∀ (ps : List MessagePart) (acc : List AttachmentDescriptor),
      extractAttachmentsFromParts ps acc =
        acc ++ (allParts ps).filterMap descOf := by
  intro ps acc
  induction ps, acc using extractAttachmentsFromParts.induct with
  | case1 acc => simp [extractAttachmentsFromParts, allParts]
  | case2 mt fn body children rest acc ihc ihr =>
    rw [extractAttachmentsFromParts]
    rw [filterMap_allParts_cons]
    simp only [dite_eq_ite] at ihr
    by_cases he : children.isEmpty
    · have hc : children = [] := List.isEmpty_iff.mp he
      subst hc
      rw [if_pos he] at ihr
      rw [if_pos he, ihr]
      simp [allParts]
    · rw [if_neg he] at ihr
      rw [if_neg he, ihr, ihc]
      simp [List.append_assoc]

theorem findAttachmentPartAux_some_spec (ref : String) :
    ∀ (ps : List MessagePart) (res : Option MessagePart) (p : MessagePart),
      findAttachmentPartAux ref ps res = some p →
      res = some p ∨ (p ∈ allParts ps ∧ partHasRef ref p = true) := by
  intro ps res
  induction ps, res using findAttachmentPartAux.induct ref with
  | case1 res => intro p hp; rw [findAttachmentPartAux] at hp; left; exact hp
  | case2 mt fn body children rest res hmatch =>
    intro p hp
    rw [findAttachmentPartAux, if_pos hmatch] at hp
    right
    simp only [Option.some.injEq] at hp
    refine ⟨?_, ?_⟩
    · rw [allParts, ← hp]
      exact List.mem_cons_self _ _
    · rw [← hp]
      exact hmatch
  | case3 mt fn body children rest res hmatch ihc ihr =>
    intro p hp
    rw [findAttachmentPartAux, if_neg hmatch] at hp
    simp only [dite_eq_ite] at ihr
    rcases ihr p hp with h2 | ⟨hmem, href⟩
    · by_cases he : children.isEmpty
      · rw [if_pos he] at h2
        left; exact h2
      · rw [if_neg he] at h2
        rcases ihc p h2 with h3 | ⟨hmem, href⟩
        · left; exact h3
        · right
          refine ⟨?_, href⟩
          rw [allParts]
          exact List.mem_cons_of_mem _ (List.mem_append_left _ hmem)
    · right
      refine ⟨?_, href⟩
      rw [allParts]
      exact List.mem_cons_of_mem _ (List.mem_append_right _ hmem)

theorem findAttachmentPartAux_none_of_absent (ref : String) :
    ∀ (ps : List MessagePart) (res : Option MessagePart),
      existsRefPart ref ps = false →
      findAttachmentPartAux ref ps res = res := by
  intro ps res
  induction ps, res using findAttachmentPartAux.induct ref with
  | case1 res => intro _; rw [findAttachmentPartAux]
  | case2 mt fn body children rest res hmatch =>
    intro habs
    rw [existsRefPart] at habs
    simp only [Bool.or_eq_false_iff] at habs
    exact absurd hmatch (by simp [habs.1.1])
  | case3 mt fn body children rest res hmatch ihc ihr =>
    intro habs
    rw [existsRefPart] at habs
    simp only [Bool.or_eq_false_iff] at habs
    rw [findAttachmentPartAux, if_neg hmatch]
    simp only [dite_eq_ite] at ihr
    by_cases he : children.isEmpty
    · rw [if_pos he] at ihr
      rw [if_pos he]
      exact ihr habs.2
    · rw [if_neg he] at ihr
      rw [if_neg he, ihc habs.1.2]
      rw [ihc habs.1.2] at ihr
      exact ihr habs.2

theorem findAttachmentPartAux_isSome (ref : String) :
    ∀ (ps : List MessagePart) (res : Option MessagePart),
      (existsRefPart ref ps || res.isSome) = true →
      (findAttachmentPartAux ref ps res).isSome = true := by
  intro ps res
  induction ps, res using findAttachmentPartAux.induct ref with
  | case1 res =>
    intro h
    rw [findAttachmentPartAux]
    simpa [existsRefPart] using h
  | case2 mt fn body children rest res hmatch =>
    intro _
    rw [findAttachmentPartAux, if_pos hmatch]
    rfl
  | case3 mt fn body children rest res hmatch ihc ihr =>
    intro h
    rw [findAttachmentPartAux, if_neg hmatch]
    simp only [dite_eq_ite] at ihr
    apply ihr
    simp only [existsRefPart, Bool.or_eq_true] at h ⊢
    rcases h with ((hm | hc) | hr) | hs
    · exact absurd hm hmatch
    · right
      by_cases he : children.isEmpty
      · have hcnil : children = [] := List.isEmpty_iff.mp he
        subst hcnil
        rw [existsRefPart] at hc
        simp at hc
      · rw [if_neg he]
        exact ihc (by simp [hc])
    · left; exact hr
    · right
      by_cases he : children.isEmpty
      · rw [if_pos he]; exact hs
      · rw [if_neg he]; exact ihc (by simp [hs])

/-! ### Lemmas about PDF extraction -/

theorem length_foldl_append (l : List String) :
    ∀ s : String, (l.foldl (fun r t => r ++ t) s).length =
      s.length + (l.map String.length).sum := by
  induction l with
  | nil => intro s; simp
  | cons x xs ih =>
    intro s
    simp only [List.foldl_cons, List.map_cons, List.sum_cons]
    rw [ih (s ++ x), String.length_append]
    omega

theorem length_join (l : List String) :
    (String.join l).length = (l.map String.length).sum := by
  simpa using length_foldl_append l ""

theorem pdfPageChunk_length_eq_zero (p : PdfPage) :
    ((pdfPageChunk p).length = 0) ↔ pageYieldsText p = false := by
  cases p with
  | nullPage => simp [pdfPageChunk, pageYieldsText]
  | extractErr => simp [pdfPageChunk, pageYieldsText]
  | text s =>
    have h2 : ("\n\n" : String).length = 2 := rfl
    simp only [pdfPageChunk, pageYieldsText, String.length_append, h2]
    constructor
    · intro h; exact absurd h (by omega)
    · intro h; simp at h

theorem take_maxPages (l : List PdfPage) :
    l.take (if l.length > 50 then 50 else l.length) = l.take 50 := by
  by_cases h : l.length > 50
  · rw [if_pos h]
  · rw [if_neg h]
    rw [List.take_length, List.take_of_length_le (by omega)]

theorem joined_chunks_empty_iff (pages : List PdfPage) :
    ((String.join (pages.map pdfPageChunk)).length = 0) ↔
      ∀ p ∈ pages, pageYieldsText p = false := by
  rw [length_join, List.map_map, List.sum_eq_zero_iff]
  constructor
  · intro h p hp
    exact (pdfPageChunk_length_eq_zero p).mp
      (h ((pdfPageChunk p).length) (List.mem_map_of_mem _ hp))
  · intro h n hn
    rw [List.mem_map] at hn
    obtain ⟨p, hp, rfl⟩ := hn
    exact (pdfPageChunk_length_eq_zero p).mpr (h p hp)

/-! ### DOCX / XML extraction

`extractTextFromXML` (main.go lines 1415-1460) walks the token stream of
the standard-library `encoding/xml` decoder.  The decoder is external to
the repository, so a faithful executable model of the subset of XML it
is fed here is defined below: elements with double-quoted attributes,
character data without entity references, and processing instructions
(which the source loop ignores).  Namespace resolution follows the
documented Go behavior: a bound prefix resolves to its URL, and "if the
decoder encounters an unrecognized name space prefix, it uses the prefix
as the Space rather than report an error".  Comments, directives and
CDATA sections are not modeled; on such input (and on malformed input)
the model stops the token stream, matching the `break`-on-error loop of
the source. -/

/-- A resolved XML name as produced by the Go `encoding/xml` decoder:
`space` is the namespace URL when the prefix is bound, the literal
prefix when unbound, and empty for unprefixed names with no default
namespace in scope. -/
structure XmlName where
  space : String
  localName : String
deriving Repr, DecidableEq

/-- The tokens `extractTextFromXML` inspects.  Attribute lists are
consumed during namespace resolution and not kept, because the source
switch reads only element names and character data. -/
inductive XmlToken where
  | startElement (name : XmlName)
  | endElement (name : XmlName)
  | charData (s : String)
deriving Repr, DecidableEq

/-- Splits a raw tag name at its colon into prefix and local part, as
the Go decoder does; a name without exactly one well-placed colon has an
empty prefix and is wholly local. -/
def splitQNameAux : List Char → List Char → List (List Char)
  | [], acc => [acc.reverse]
  | c :: cs, acc =>
    if c = ':' then acc.reverse :: splitQNameAux cs []
    else splitQNameAux cs (c :: acc)

def splitQName (raw : String) : String × String :=
  match (splitQNameAux raw.data []).map String.mk with
  | [p, l] => if p ≠ "" ∧ l ≠ "" then (p, l) else ("", raw)
  | _ => ("", raw)

/-- Model of the Go decoder name translation (`Decoder.translate` in
`encoding/xml`) with no configured default space: the `xmlns` prefix is
kept as is, the `xml` prefix maps to the XML namespace URL, a bound
prefix maps to its bound URL, an unbound non-empty prefix is kept
literally as the space, and an unprefixed name takes the default
namespace binding when present. -/
def resolveName (ns : List (String × String)) (raw : String) : XmlName :=
  let pl := splitQName raw
  if pl.1 = "xmlns" then ⟨"xmlns", pl.2⟩
  else if pl.1 = "xml" then ⟨"http://www.w3.org/XML/1998/namespace", pl.2⟩
  else
    match ns.find? (fun b => b.1 = pl.1) with
    | some b => ⟨b.2, pl.2⟩
    | none => ⟨pl.1, pl.2⟩

def takeUntil (p : Char → Bool) : List Char → List Char × List Char
  | [] => ([], [])
  | c :: cs =>
    if p c then ([], c :: cs)
    else
      match takeUntil p cs with
      | (tk, rest) => (c :: tk, rest)

def skipSpaces : List Char → List Char
  | [] => []
  | c :: cs => if isSpaceChar c then skipSpaces cs else c :: cs

def isNameEnd (c : Char) : Bool :=
  isSpaceChar c || c = '>' || c = '/' || c = '='

/-- Parses the attribute list of a start tag up to and including the
closing `>` (or `/>`); yields the raw attributes, whether the tag was
self-closing, and the remaining input.  `none` models a decoder error. -/
def parseAttrs (fuel : Nat) (cs : List Char)
    (acc : List (String × String)) :
    Option (List (String × String) × Bool × List Char) :=
  match fuel with
  | 0 => none
  | fuel + 1 =>
    match skipSpaces cs with
    | '>' :: rest => some (acc.reverse, false, rest)
    | '/' :: '>' :: rest => some (acc.reverse, true, rest)
    | [] => none
    | cs1 =>
      match takeUntil isNameEnd cs1 with
      | ([], _) => none
      | (nameCs, cs2) =>
        match skipSpaces cs2 with
        | '=' :: cs3 =>
          match skipSpaces cs3 with
          | '"' :: cs4 =>
            match takeUntil (fun c => c = '"') cs4 with
            | (valCs, '"' :: cs5) =>
              parseAttrs fuel cs5
                ((String.mk nameCs, String.mk valCs) :: acc)
            | _ => none
          | _ => none
        | _ => none

/-- The namespace bindings declared by the attributes of one start tag:
`xmlns:px="url"` binds prefix `px`; `xmlns="url"` binds the default
namespace (empty prefix). -/
def xmlnsBindings (attrs : List (String × String)) :
    List (String × String) :=
  attrs.filterMap fun a =>
    match splitQName a.1 with
    | (p, l) =>
      if p = "xmlns" then some (l, a.2)
      else if p = "" ∧ l = "xmlns" then some ("", a.2)
      else none

/-- Skips a processing instruction, consuming input up to and past the
first occurrence of the two characters closing it. -/
def skipPI (fuel : Nat) (cs : List Char) : Option (List Char) :=
  match fuel with
  | 0 => none
  | fuel + 1 =>
    match cs with
    | [] => none
    | '?' :: '>' :: rest => some rest
    | _ :: rest => skipPI fuel rest

/-- The token stream of the modeled decoder.  `ns` is the current
namespace binding list (innermost first); `stack` records, per open
element, its raw tag name and the bindings in force before it opened, so
that the end tag is translated in the scope of the element itself and
the bindings are popped afterwards, as the Go decoder does. -/
def xmlTokenizeAux (fuel : Nat) (cs : List Char)
    (ns : List (String × String))
    (stack : List (String × List (String × String))) : List XmlToken :=
  match fuel with
  | 0 => []
  | fuel + 1 =>
    match cs with
    | [] => []
    | '<' :: '?' :: rest =>
      match skipPI fuel rest with
      | some rest2 => xmlTokenizeAux fuel rest2 ns stack
      | none => []
    | '<' :: '/' :: rest =>
      match takeUntil (fun c => isSpaceChar c || c = '>') rest with
      | (nameCs, cs1) =>
        match skipSpaces cs1 with
        | '>' :: cs2 =>
          match stack with
          | (rawStart, nsBefore) :: stackRest =>
            if rawStart = String.mk nameCs then
              XmlToken.endElement (resolveName ns (String.mk nameCs)) ::
                xmlTokenizeAux fuel cs2 nsBefore stackRest
            else []
          | [] => []
        | _ => []
    | '<' :: rest =>
      match takeUntil isNameEnd rest with
      | ([], _) => []
      | (nameCs, cs1) =>
        match parseAttrs fuel cs1 [] with
        | none => []
        | some (attrs, selfClosing, cs2) =>
          match xmlnsBindings attrs ++ ns with
          | ns2 =>
            if selfClosing then
              XmlToken.startElement (resolveName ns2 (String.mk nameCs)) ::
              XmlToken.endElement (resolveName ns2 (String.mk nameCs)) ::
                xmlTokenizeAux fuel cs2 ns stack
            else
              XmlToken.startElement (resolveName ns2 (String.mk nameCs)) ::
                xmlTokenizeAux fuel cs2 ns2
                  ((String.mk nameCs, ns) :: stack)
    | _ =>
      match takeUntil (fun c => c = '<') cs with
      | ([], _) => []
      | (textCs, cs1) =>
        XmlToken.charData (String.mk textCs) ::
          xmlTokenizeAux fuel cs1 ns stack

/-- Token stream of a whole document string. -/
def xmlTokenize (s : String) : List XmlToken :=
  xmlTokenizeAux (s.length + 1) s.data [] []

/-- The wordprocessingml namespace URL tested by `extractTextFromXML`
(main.go lines 1437-1446). -/
def wNamespace : String :=
  "http://schemas.openxmlformats.org/wordprocessingml/2006/main"

/-- The element-name test of `extractTextFromXML`:
`t.Name.Local == "t" && t.Name.Space == wNamespace`. -/
def isWTextName (n : XmlName) : Bool :=
  n.localName = "t" && n.space = wNamespace

/-- Embeds the token loop of `extractTextFromXML` (main.go lines
1424-1452): a single boolean tracks being inside a `w:t` element;
character data seen inside is trimmed and collected when non-empty. -/
def collectTextParts : List XmlToken → Bool → List String
  | [], _ => []
  | XmlToken.startElement n :: rest, inside =>
    if isWTextName n then collectTextParts rest true
    else collectTextParts rest inside
  | XmlToken.endElement n :: rest, inside =>
    if isWTextName n then collectTextParts rest false
    else collectTextParts rest inside
  | XmlToken.charData s :: rest, inside =>
    if inside then
      (if trimString s ≠ "" then [trimString s] else []) ++
        collectTextParts rest inside
    else collectTextParts rest inside

/-- Embeds `extractTextFromXML` (main.go lines 1415-1460): collect the
trimmed character data inside `w:t` elements, join with single spaces,
then collapse whitespace runs (`strings.Fields` + `strings.Join`). -/
def extractTextFromXML (xmlContent : String) : String :=
  joinWith " "
    (stringFields
      (joinWith " " (collectTextParts (xmlTokenize xmlContent) false)))

/-- Embeds `extractDOCXText` (main.go lines 1375-1412) from the point
where the temporary file has been written and the DOCX package opened
and read (`doc.Editable().GetContent()` — external library): empty
content fails; XML-looking content is stripped via `extractTextFromXML`,
falling back to the raw content verbatim when the strip yields nothing;
non-XML content is returned verbatim. -/
def extractDOCXTextFromContent (rawContent : String) : Except String String :=
  if rawContent.length = 0 then
    Except.error "no text could be extracted from DOCX"
  else if strStartsWith (trimString rawContent) "<?xml" ∨
      strStartsWith (trimString rawContent) "<"
  then
    if (extractTextFromXML rawContent).length > 0 then
      Except.ok (extractTextFromXML rawContent)
    else Except.ok rawContent
  else Except.ok rawContent

/-! ### Concrete decoders and converters for counterexamples and
witnesses

`decodeEx` stands for `decodeEmailContent` over inputs whose base64
decoding succeeds and denotes the decoded text by the data itself,
except for the input "BAD" on which both decodings fail (as they do in
Go for data that is valid in neither alphabet). -/

def decodeEx (s : String) : Option String :=
  if s = "BAD" then none else some s

/-- A converter that always fails, standing for
`htmltomarkdown.ConvertString` on markup it cannot convert. -/
def convertFail : String → Option String := fun _ => none

/-- A converter that succeeds and tags its input, so that its output is
recognizable. -/
def convertTag (s : String) : Option String := some ("MD:" ++ s)

/-! ### The claims -/

/-- Claim C1, counterexample: a message with non-empty top-level
plain-text payload (decoding to "TOP"), no HTML anywhere, and one
descendant plain-text part (decoding to "CHILD") resolves to "CHILD",
not to the top-level "TOP" — the child value OVERWRITES the non-empty
top-level value, so children do not act as fallback only. -/
theorem claim1_counterexample :
    extractEmailBody decodeEx convertFail
      ⟨some (.mk "text/plain" "" (some ⟨"", 0, "TOP"⟩)
        [.mk "text/plain" "" (some ⟨"", 0, "CHILD"⟩) []])⟩ = "CHILD" ∧
    decodeEx "TOP" = some "TOP" ∧
    partsTexts decodeEx "text/html"
      [MessagePart.mk "text/plain" "" (some ⟨"", 0, "CHILD"⟩) []] = [] ∧
    ("CHILD" : String) ≠ "TOP" := by
  refine ⟨?_, by decide, ?_, by decide⟩
  · simp [extractEmailBody, MessagePart.body, MessagePart.mimeType,
      MessagePart.parts, extractFromParts, extractFromPartsAux, partSlotStep,
      slotFill, decodeEx, extractTextAndLinksFromHTML]
  · simp [partsTexts, partCandidates, decodeEx]

/-- Claim C1 as amended: for a message whose top-level part is
plain-text with non-empty payload decoding to non-empty `p` and whose
descendants carry no HTML, the resolved body is the top-level text `p`
only when no descendant yields non-empty plain text; when the payloads
of the tree decode, the resolved body is the FIRST descendant plain-text
occurrence when one exists (children override the top-level value),
else `p`. -/
theorem claim1_amended (decode convert : String → Option String)
    (fn : String) (b : PartBody) (children : List MessagePart) (p : String)
    (hdata : b.data ≠ "") (hdec : decode b.data = some p) (hp : p ≠ "")
    (hnohtml : partsTexts decode "text/html" children = []) :
    (partsTexts decode "text/plain" children = [] →
      extractEmailBody decode convert
        ⟨some (.mk "text/plain" fn (some b) children)⟩ = p) ∧
    (allDecodable decode children = true →
      extractEmailBody decode convert
        ⟨some (.mk "text/plain" fn (some b) children)⟩ =
        (partsTexts decode "text/plain" children).headD p) := by
  constructor
  · intro hplain
    cases children with
    | nil =>
      simp [extractEmailBody, MessagePart.body, MessagePart.mimeType,
        MessagePart.parts, hdata, hdec, hp]
    | cons c cs =>
      have hsnd : (extractFromPartsAux decode (c :: cs) "" "").2 = "" := by
        rcases extractFromPartsAux_snd_sound decode (c :: cs) "" "" with h | h
        · exact h
        · rw [hnohtml] at h; simp at h
      have hfst : (extractFromPartsAux decode (c :: cs) "" "").1 = "" := by
        rcases extractFromPartsAux_fst_sound decode (c :: cs) "" "" with h | h
        · exact h
        · rw [hplain] at h; simp at h
      simp [extractEmailBody, MessagePart.body, MessagePart.mimeType,
        MessagePart.parts, extractFromParts, hdata, hdec, hfst, hsnd, hp]
  · intro hall
    cases children with
    | nil =>
      simp [extractEmailBody, MessagePart.body, MessagePart.mimeType,
        MessagePart.parts, hdata, hdec, hp, partsTexts]
    | cons c cs =>
      have hspec := extractFromPartsAux_spec decode (c :: cs) "" "" hall
      have hfst : (extractFromPartsAux decode (c :: cs) "" "").1 =
          (partsTexts decode "text/plain" (c :: cs)).headD "" := by
        rw [hspec]; simp [strOr_empty_left]
      have hsnd : (extractFromPartsAux decode (c :: cs) "" "").2 = "" := by
        rw [hspec]; simp [strOr_empty_left, hnohtml]
      cases hcand : partsTexts decode "text/plain" (c :: cs) with
      | nil =>
        rw [hcand] at hfst
        simp [extractEmailBody, MessagePart.body, MessagePart.mimeType,
          MessagePart.parts, extractFromParts, hdata, hdec, hfst, hsnd, hp]
      | cons t ts =>
        have ht : t ≠ "" :=
          partsTexts_ne_empty decode "text/plain" (c :: cs) t
            (by rw [hcand]; exact List.mem_cons_self t ts)
        rw [hcand] at hfst
        simp only [List.headD_cons] at hfst
        simp [extractEmailBody, MessagePart.body, MessagePart.mimeType,
          MessagePart.parts, extractFromParts, hdata, hdec, hfst, hsnd, ht]

/-- Claim C1 witness: the amended claim at a concrete message — with no
descendant plain text the top-level text survives unchanged. -/
theorem claim1_witness :
    extractEmailBody decodeEx convertFail
      ⟨some (.mk "text/plain" "" (some ⟨"", 0, "TOP"⟩)
        [.mk "image/png" "att.png" none []])⟩ = "TOP" := by
  have h := (claim1_amended decodeEx convertFail "" ⟨"", 0, "TOP"⟩
    [.mk "image/png" "att.png" none []] "TOP"
    (by decide) (by decide) (by decide)
    (by simp [partsTexts, partCandidates])).1
  exact h (by simp [partsTexts, partCandidates])

/-- Claim C2, counterexample: in a tree whose first "text/plain" leaf
(decoding to "A") sits below a part whose own payload fails decoding,
the traversal prunes that subtree and fills the slot with the LATER
occurrence "B" — not with the first occurrence in depth-first document
order as the claim states. -/
theorem claim2_counterexample :
    extractFromParts decodeEx
      [MessagePart.mk "application/octet-stream" "" (some ⟨"", 0, "BAD"⟩)
        [MessagePart.mk "text/plain" "" (some ⟨"", 0, "A"⟩) []],
       MessagePart.mk "text/plain" "" (some ⟨"", 0, "B"⟩) []] = ("B", "") ∧
    partsTexts decodeEx "text/plain"
      [MessagePart.mk "application/octet-stream" "" (some ⟨"", 0, "BAD"⟩)
        [MessagePart.mk "text/plain" "" (some ⟨"", 0, "A"⟩) []],
       MessagePart.mk "text/plain" "" (some ⟨"", 0, "B"⟩) []] = ["A", "B"] := by
  constructor
  · simp [extractFromParts, extractFromPartsAux, partSlotStep, slotFill,
      decodeEx]
  · simp [partsTexts, partCandidates, decodeEx]

/-- Claim C2 as amended: the traversal never overwrites a slot once
filled (unconditionally); and each slot receives the first non-empty
occurrence of its kind in depth-first document order PROVIDED every
inline payload in the tree decodes — a part whose payload fails to
decode has its whole subtree skipped, so an earlier occurrence below it
may lose to a later one. -/
theorem claim2_amended (decode : String → Option String)
    (ps : List MessagePart) (pl ht : String) :
    ((pl ≠ "" → (extractFromPartsAux decode ps pl ht).1 = pl) ∧
     (ht ≠ "" → (extractFromPartsAux decode ps pl ht).2 = ht)) ∧
    (allDecodable decode ps = true →
      extractFromParts decode ps =
        ((partsTexts decode "text/plain" ps).headD "",
         (partsTexts decode "text/html" ps).headD "")) := by
  refine ⟨⟨extractFromPartsAux_fst_filled decode ps pl ht,
           extractFromPartsAux_snd_filled decode ps pl ht⟩, fun hall => ?_⟩
  rw [extractFromParts, extractFromPartsAux_spec decode ps "" "" hall]
  simp [strOr_empty_left]

/-- Claim C3, counterexample: a message with empty top-level payload,
one descendant "text/html" part and one descendant "text/plain" part
(both with decodable payload) resolves to the PLAIN text when the HTML
part sits below a part whose payload fails decoding: the traversal
skips that subtree and never sees the HTML. -/
theorem claim3_counterexample :
    extractEmailBody decodeEx convertTag
      ⟨some (.mk "multipart/mixed" "" none
        [.mk "application/octet-stream" "" (some ⟨"", 0, "BAD"⟩)
          [.mk "text/html" "" (some ⟨"", 0, "<b>H</b>"⟩) []],
         .mk "text/plain" "" (some ⟨"", 0, "P"⟩) []])⟩ = "P" ∧
    extractTextAndLinksFromHTML convertTag "<b>H</b>" = "MD:<b>H</b>" ∧
    decodeEx "<b>H</b>" = some "<b>H</b>" ∧
    decodeEx "P" = some "P" ∧ ("P" : String) ≠ "MD:<b>H</b>" := by
  refine ⟨?_, by decide, by decide, by decide, by decide⟩
  simp [extractEmailBody, MessagePart.body, MessagePart.mimeType,
    MessagePart.parts, extractFromParts, extractFromPartsAux, partSlotStep,
    slotFill, decodeEx, extractTextAndLinksFromHTML]

/-- Claim C3 as amended: for a message with no top-level inline payload
whose descendant payloads all decode, if the tree carries at least one
non-empty HTML occurrence, resolution returns the first such occurrence
passed through the HTML normalizer (never the plain-text content). -/
theorem claim3_amended (decode convert : String → Option String)
    (mt fn : String) (children : List MessagePart)
    (hall : allDecodable decode children = true)
    (hhtml : partsTexts decode "text/html" children ≠ []) :
    extractEmailBody decode convert ⟨some (.mk mt fn none children)⟩ =
      extractTextAndLinksFromHTML convert
        ((partsTexts decode "text/html" children).headD "") := by
  cases children with
  | nil => exact absurd (by rw [partsTexts]) hhtml
  | cons c cs =>
    have hspec := extractFromPartsAux_spec decode (c :: cs) "" "" hall
    have hsnd : (extractFromPartsAux decode (c :: cs) "" "").2 =
        (partsTexts decode "text/html" (c :: cs)).headD "" := by
      rw [hspec]; simp [strOr_empty_left]
    cases hcand : partsTexts decode "text/html" (c :: cs) with
    | nil => exact absurd hcand hhtml
    | cons t ts =>
      have ht : t ≠ "" :=
        partsTexts_ne_empty decode "text/html" (c :: cs) t
          (by rw [hcand]; exact List.mem_cons_self t ts)
      rw [hcand] at hsnd
      simp only [List.headD_cons] at hsnd
      simp [extractEmailBody, MessagePart.body, MessagePart.mimeType,
        MessagePart.parts, extractFromParts, hsnd, ht]

/-- Claim C3 witness: the amended claim at a concrete message with one
HTML and one plain descendant. -/
theorem claim3_witness :
    extractEmailBody decodeEx convertTag
      ⟨some (.mk "multipart/alternative" "" none
        [.mk "text/html" "" (some ⟨"", 0, "<b>H</b>"⟩) [],
         .mk "text/plain" "" (some ⟨"", 0, "P"⟩) []])⟩ = "MD:<b>H</b>" := by
  have h := claim3_amended decodeEx convertTag "multipart/alternative" ""
    [.mk "text/html" "" (some ⟨"", 0, "<b>H</b>"⟩) [],
     .mk "text/plain" "" (some ⟨"", 0, "P"⟩) []]
    (by simp [allDecodable, bodyDecodes, decodeEx])
    (by simp [partsTexts, partCandidates, decodeEx])
  rw [h]
  have hc : partsTexts decodeEx "text/html"
      [MessagePart.mk "text/html" "" (some ⟨"", 0, "<b>H</b>"⟩) [],
       MessagePart.mk "text/plain" "" (some ⟨"", 0, "P"⟩) []] =
      ["<b>H</b>"] := by
    simp [partsTexts, partCandidates, decodeEx]
  rw [hc]
  decide

/-- Claim C4, counterexample: a part whose inline bodyData is present
but fails both decodings matches neither kind, yet its children are NOT
visited — the decodable "text/plain" descendant "A" below it is never
found, and the traversal returns empty slots. -/
theorem claim4_counterexample :
    extractFromParts decodeEx
      [MessagePart.mk "application/octet-stream" "" (some ⟨"", 0, "BAD"⟩)
        [MessagePart.mk "text/plain" "" (some ⟨"", 0, "A"⟩) []]] =
      ("", "") ∧
    partsTexts decodeEx "text/plain"
      [MessagePart.mk "application/octet-stream" "" (some ⟨"", 0, "BAD"⟩)
        [MessagePart.mk "text/plain" "" (some ⟨"", 0, "A"⟩) []]] = ["A"] ∧
    decodeEx "BAD" = none := by
  refine ⟨?_, ?_, by decide⟩
  · simp [extractFromParts, extractFromPartsAux, partSlotStep, slotFill,
      decodeEx]
  · simp [partsTexts, partCandidates, decodeEx]

/-- Claim C4 as amended: during the pair traversal, a part that matches
neither the preferred nor the fallback kind — a pure container with no
inline body, a part whose inline data is empty, or a part whose data
decodes but whose declared kind is neither "text/plain" nor
"text/html" — is skipped while its children are still visited; EXCEPT
when its inline bodyData is present and fails both base64 decodings:
then `continue` skips the entire subtree and its children are not
visited. -/
theorem claim4_amended (urlDecode stdDecode : String → Option String)
    (mt fn : String) (body : Option PartBody)
    (children rest : List MessagePart) (pl ht : String) :
    ((body = none ∨
      (∃ b, body = some b ∧ b.data = "") ∨
      (∃ b decoded, body = some b ∧ b.data ≠ "" ∧
        decodeEmailContent urlDecode stdDecode b.data = some decoded ∧
        mt ≠ "text/plain" ∧ mt ≠ "text/html")) →
      extractFromPartsAux (decodeEmailContent urlDecode stdDecode)
          (MessagePart.mk mt fn body children :: rest) pl ht =
        extractFromPartsAux (decodeEmailContent urlDecode stdDecode) rest
          (slotFill pl
            (extractFromParts (decodeEmailContent urlDecode stdDecode)
              children).1)
          (slotFill ht
            (extractFromParts (decodeEmailContent urlDecode stdDecode)
              children).2)) ∧
    (∀ b, body = some b → b.data ≠ "" → urlDecode b.data = none →
      stdDecode b.data = none →
      extractFromPartsAux (decodeEmailContent urlDecode stdDecode)
          (MessagePart.mk mt fn body children :: rest) pl ht =
        extractFromPartsAux (decodeEmailContent urlDecode stdDecode)
          rest pl ht) := by
  constructor
  · intro hno
    have hstep : partSlotStep (decodeEmailContent urlDecode stdDecode)
        mt body pl ht = some (pl, ht) := by
      rcases hno with rfl | ⟨b, rfl, hd⟩ |
        ⟨b, decoded, rfl, hd, hdec, hmt1, hmt2⟩
      · simp [partSlotStep]
      · simp [partSlotStep, hd]
      · simp [partSlotStep, hd, hdec, hmt1, hmt2]
    simp only [extractFromPartsAux, hstep, nestedPair_eq]
  · intro b hb hdata hurl hstd
    subst hb
    have hdec : decodeEmailContent urlDecode stdDecode b.data = none := by
      simp [decodeEmailContent, hurl, hstd]
    have hstep : partSlotStep (decodeEmailContent urlDecode stdDecode)
        mt (some b) pl ht = none := by
      simp [partSlotStep, hdata, hdec]
    simp only [extractFromPartsAux, hstep]

/-- Claim C4 witness: the amended claim at concrete inputs — the
children of a bodyless container part, of an empty-data part and of a
non-matching decodable part are all visited (the matching plain-text
descendant "A" reaches the slot in each case), while the children of a
part that fails both decodings are skipped. -/
theorem claim4_witness :
    extractFromPartsAux (decodeEmailContent decodeEx decodeEx)
        [MessagePart.mk "multipart/mixed" "" none
          [MessagePart.mk "text/plain" "" (some ⟨"", 0, "A"⟩) []]] "" "" =
      extractFromPartsAux (decodeEmailContent decodeEx decodeEx) []
        (slotFill ""
          (extractFromParts (decodeEmailContent decodeEx decodeEx)
            [MessagePart.mk "text/plain" "" (some ⟨"", 0, "A"⟩) []]).1)
        (slotFill ""
          (extractFromParts (decodeEmailContent decodeEx decodeEx)
            [MessagePart.mk "text/plain" "" (some ⟨"", 0, "A"⟩) []]).2) ∧
    extractFromPartsAux (decodeEmailContent decodeEx decodeEx)
        [MessagePart.mk "text/plain" "" (some ⟨"", 0, ""⟩)
          [MessagePart.mk "text/plain" "" (some ⟨"", 0, "A"⟩) []]] "" "" =
      extractFromPartsAux (decodeEmailContent decodeEx decodeEx) []
        (slotFill ""
          (extractFromParts (decodeEmailContent decodeEx decodeEx)
            [MessagePart.mk "text/plain" "" (some ⟨"", 0, "A"⟩) []]).1)
        (slotFill ""
          (extractFromParts (decodeEmailContent decodeEx decodeEx)
            [MessagePart.mk "text/plain" "" (some ⟨"", 0, "A"⟩) []]).2) ∧
    extractFromPartsAux (decodeEmailContent decodeEx decodeEx)
        [MessagePart.mk "application/octet-stream" "" (some ⟨"", 0, "X"⟩)
          [MessagePart.mk "text/plain" "" (some ⟨"", 0, "A"⟩) []]] "" "" =
      extractFromPartsAux (decodeEmailContent decodeEx decodeEx) []
        (slotFill ""
          (extractFromParts (decodeEmailContent decodeEx decodeEx)
            [MessagePart.mk "text/plain" "" (some ⟨"", 0, "A"⟩) []]).1)
        (slotFill ""
          (extractFromParts (decodeEmailContent decodeEx decodeEx)
            [MessagePart.mk "text/plain" "" (some ⟨"", 0, "A"⟩) []]).2) ∧
    extractFromPartsAux (decodeEmailContent decodeEx decodeEx)
        [MessagePart.mk "application/octet-stream" "" (some ⟨"", 0, "BAD"⟩)
          [MessagePart.mk "text/plain" "" (some ⟨"", 0, "A"⟩) []]] "" "" =
      extractFromPartsAux (decodeEmailContent decodeEx decodeEx) [] "" "" := by
  refine ⟨?_, ?_, ?_, ?_⟩
  · exact (claim4_amended decodeEx decodeEx "multipart/mixed" "" none
      [MessagePart.mk "text/plain" "" (some ⟨"", 0, "A"⟩) []]
      [] "" "").1 (Or.inl rfl)
  · exact (claim4_amended decodeEx decodeEx "text/plain" ""
      (some ⟨"", 0, ""⟩)
      [MessagePart.mk "text/plain" "" (some ⟨"", 0, "A"⟩) []]
      [] "" "").1 (Or.inr (Or.inl ⟨⟨"", 0, ""⟩, rfl, rfl⟩))
  · exact (claim4_amended decodeEx decodeEx "application/octet-stream" ""
      (some ⟨"", 0, "X"⟩)
      [MessagePart.mk "text/plain" "" (some ⟨"", 0, "A"⟩) []]
      [] "" "").1
      (Or.inr (Or.inr ⟨⟨"", 0, "X"⟩, "X", rfl, by decide, by decide,
        by decide, by decide⟩))
  · exact (claim4_amended decodeEx decodeEx "application/octet-stream" ""
      (some ⟨"", 0, "BAD"⟩)
      [MessagePart.mk "text/plain" "" (some ⟨"", 0, "A"⟩) []]
      [] "" "").2 ⟨"", 0, "BAD"⟩ rfl (by decide) (by decide) (by decide)

set_option maxRecDepth 40000

/-- Claim C5, counterexample: on package content exactly
`<w:t>Hello</w:t><w:t>World</w:t>` the `w:` prefix is unbound, so the
decoder keeps the literal prefix "w" as the namespace — never the
wordprocessingml URL the strip step tests for.  The strip collects
nothing and DOCX extraction falls back to returning the raw package
content verbatim, not "Hello World". -/
theorem claim5_counterexample :
    extractDOCXTextFromContent "<w:t>Hello</w:t><w:t>World</w:t>" =
      Except.ok "<w:t>Hello</w:t><w:t>World</w:t>" ∧
    extractDOCXTextFromContent "<w:t>Hello</w:t><w:t>World</w:t>" ≠
      Except.ok "Hello World" ∧
    extractTextFromXML "<w:t>Hello</w:t><w:t>World</w:t>" = "" := by
  have h : extractDOCXTextFromContent "<w:t>Hello</w:t><w:t>World</w:t>" =
      Except.ok "<w:t>Hello</w:t><w:t>World</w:t>" := by rfl
  refine ⟨h, ?_, by rfl⟩
  rw [h]
  simp

/-- Claim C5 as amended: on the exact content
`<w:t>Hello</w:t><w:t>World</w:t>` the strip yields nothing (the `w:`
prefix being unbound) and the raw content is returned verbatim, per the
fallback rule; when the content binds the wordprocessingml namespace —
as every real DOCX document part does — extraction yields exactly
"Hello World" with markup discarded and whitespace collapsed to single
spaces. -/
theorem claim5_amended :
    extractDOCXTextFromContent "<w:t>Hello</w:t><w:t>World</w:t>" =
      Except.ok "<w:t>Hello</w:t><w:t>World</w:t>" ∧
    extractTextFromXML
      "<w:document xmlns:w=\"http://schemas.openxmlformats.org/wordprocessingml/2006/main\"><w:t>Hello</w:t><w:t>World</w:t></w:document>" =
      "Hello World" ∧
    extractDOCXTextFromContent
      "<w:document xmlns:w=\"http://schemas.openxmlformats.org/wordprocessingml/2006/main\"><w:t>Hello</w:t><w:t>World</w:t></w:document>" =
      Except.ok "Hello World" := by
  refine ⟨by rfl, by rfl, by rfl⟩

/-- Claim C6, counterexample: two distinct parts carry the same
reference "x"; the first in depth-first document order is nested, the
second is a later top-level sibling.  The lookup returns the LATER
sibling, because a match found by the nested recursive call does not
stop the enclosing loop, which then overwrites the out-pointer. -/
theorem claim6_counterexample :
    findAttachmentPart
      [MessagePart.mk "multipart/mixed" "" none
        [MessagePart.mk "application/pdf" "a.pdf" (some ⟨"x", 1, ""⟩) []],
       MessagePart.mk "application/pdf" "b.pdf" (some ⟨"x", 2, ""⟩) []]
      "x" =
      some (MessagePart.mk "application/pdf" "b.pdf" (some ⟨"x", 2, ""⟩) []) ∧
    dfsFirstByRef "x"
      [MessagePart.mk "multipart/mixed" "" none
        [MessagePart.mk "application/pdf" "a.pdf" (some ⟨"x", 1, ""⟩) []],
       MessagePart.mk "application/pdf" "b.pdf" (some ⟨"x", 2, ""⟩) []] =
      some (MessagePart.mk "application/pdf" "a.pdf" (some ⟨"x", 1, ""⟩) []) ∧
    ("b.pdf" : String) ≠ "a.pdf" := by
  refine ⟨?_, ?_, by decide⟩
  · simp [findAttachmentPart, findAttachmentPartAux, partHasRef]
  · simp [dfsFirstByRef, partHasRef]

/-- Claim C6 as amended: the lookup returns SOME part carrying the
reference exactly when one exists in the forest, and whatever it
returns is a part of the forest carrying the reference — but it is not
always the first such part in depth-first document order (a nested
match can be overwritten by a later match at an enclosing level). -/
theorem claim6_amended (ps : List MessagePart) (ref : String) :
    ((findAttachmentPart ps ref).isSome = existsRefPart ref ps) ∧
    (∀ p, findAttachmentPart ps ref = some p →
      p ∈ allParts ps ∧ partHasRef ref p = true) := by
  constructor
  · by_cases he : existsRefPart ref ps = true
    · rw [he]
      exact findAttachmentPartAux_isSome ref ps none (by simp [he])
    · have hf : existsRefPart ref ps = false := by simpa using he
      rw [hf, findAttachmentPart,
        findAttachmentPartAux_none_of_absent ref ps none hf]
      rfl
  · intro p hp
    rcases findAttachmentPartAux_some_spec ref ps none p hp with h | h
    · simp at h
    · exact h

/-- Small helper: a string of non-zero length is not the empty
string. -/
theorem string_ne_empty_of_length (s : String) (h : s.length ≠ 0) :
    s ≠ "" := by
  intro he
  rw [he] at h
  exact h rfl

/-- Reduction of `extractPDFText` to an explicit conditional over the
first 50 pages (taking at most 50 of a shorter list takes them all, so
the cap can be written uniformly). -/
theorem extractPDFText_eq (doc : PdfDoc) :
    extractPDFText doc =
      (if (String.join ((doc.pages.take 50).map pdfPageChunk)).length = 0
       then Except.error "no text could be extracted from PDF"
       else if doc.pages.length > 50 then
         Except.ok (String.join ((doc.pages.take 50).map pdfPageChunk) ++
           "\n\n[Note: PDF has " ++ toString doc.pages.length ++
           " pages total, but only first 50 pages were processed for safety]")
       else Except.ok (String.join ((doc.pages.take 50).map pdfPageChunk))) := by
  simp only [extractPDFText, take_maxPages]

/-- Claim C7: PDF extraction never returns the empty string as success;
it fails — with exactly the reason "no text could be extracted from
PDF" — precisely when none of the processed pages (the first 50, per
the cap stated alongside this rule in the spec) yields text; and page
failures are skipped without failing the whole extraction while some
processed page yields text. -/
theorem claim7_pdf_contract (doc : PdfDoc) :
    (∀ s, extractPDFText doc = Except.ok s → s ≠ "") ∧
    (extractPDFText doc = Except.error "no text could be extracted from PDF"
      ↔ ∀ p ∈ doc.pages.take 50, pageYieldsText p = false) ∧
    ((∃ p ∈ doc.pages.take 50, pageYieldsText p = true) →
      ∃ s, extractPDFText doc = Except.ok s) := by
  have hkey := joined_chunks_empty_iff (doc.pages.take 50)
  refine ⟨?_, ?_, ?_⟩
  · intro s hs
    rw [extractPDFText_eq] at hs
    by_cases h0 :
        (String.join ((doc.pages.take 50).map pdfPageChunk)).length = 0
    · rw [if_pos h0] at hs
      exact absurd hs (by simp)
    · rw [if_neg h0] at hs
      by_cases h50 : doc.pages.length > 50
      · rw [if_pos h50] at hs
        simp only [Except.ok.injEq] at hs
        apply string_ne_empty_of_length
        rw [← hs]
        simp only [String.length_append]
        omega
      · rw [if_neg h50] at hs
        simp only [Except.ok.injEq] at hs
        apply string_ne_empty_of_length
        rw [← hs]
        exact h0
  · rw [extractPDFText_eq]
    constructor
    · intro herr
      by_cases h0 :
          (String.join ((doc.pages.take 50).map pdfPageChunk)).length = 0
      · exact hkey.mp h0
      · rw [if_neg h0] at herr
        by_cases h50 : doc.pages.length > 50
        · rw [if_pos h50] at herr
          exact absurd herr (by simp)
        · rw [if_neg h50] at herr
          exact absurd herr (by simp)
    · intro hall
      rw [if_pos (hkey.mpr hall)]
  · rintro ⟨p, hp, hy⟩
    have h0 :
        ¬(String.join ((doc.pages.take 50).map pdfPageChunk)).length = 0 := by
      intro h
      have h2 := hkey.mp h p hp
      rw [hy] at h2
      exact absurd h2 (by simp)
    rw [extractPDFText_eq, if_neg h0]
    by_cases h50 : doc.pages.length > 50
    · rw [if_pos h50]
      exact ⟨_, rfl⟩
    · rw [if_neg h50]
      exact ⟨_, rfl⟩

/-- Claim C8, counterexample: a message whose root payload itself
carries an attachment reference (and has no children) yields NO
descriptors — the walk starts at the payload children and never
examines the root, although the root qualifies as an attachment
(`descOf` is defined on it). -/
theorem claim8_counterexample :
    extractAttachmentInfo
      ⟨some (.mk "application/pdf" "root.pdf" (some ⟨"att1", 5, ""⟩) [])⟩ =
      [] ∧
    (descOf
      (.mk "application/pdf" "root.pdf" (some ⟨"att1", 5, ""⟩) [])).isSome =
      true := by
  constructor
  · simp [extractAttachmentInfo, MessagePart.parts, extractAttachmentsFromParts]
  · simp [descOf]

/-- Claim C8 as amended: the walk visits every part EXCEPT the root
payload itself: over the payload children forest, it returns exactly one
descriptor per part carrying an attachment reference, in strict
depth-first document order (a part before its children, children before
later siblings), without stopping early; the function is pure, so
running it twice on the same tree yields identical output. -/
theorem claim8_amended (payload : MessagePart) :
    extractAttachmentInfo ⟨some payload⟩ =
      (allParts payload.parts).filterMap descOf := by
  simp only [extractAttachmentInfo]
  rw [extractAttachmentsFromParts_spec]
  simp

/-- Claim C9, counterexample: on conversion failure the original input
is returned unchanged, so for an input with leading and trailing
whitespace the output is NOT trimmed — the trimming guarantee holds
only on the success path. -/
theorem claim9_counterexample :
    extractTextAndLinksFromHTML convertFail " x " = " x " ∧
    trimString " x " ≠ " x " ∧
    extractTextAndLinksFromHTML convertFail " x " ≠
      trimString (extractTextAndLinksFromHTML convertFail " x ") := by
  refine ⟨by rfl, by decide, by decide⟩

/-- Claim C9 as amended: HTML normalization never errors; when the
converter fails it returns the original input unchanged (hence possibly
untrimmed), and when the converter succeeds it returns the converted
markdown trimmed of leading and trailing whitespace. -/
theorem claim9_amended (convert : String → Option String) (s : String) :
    (convert s = none → extractTextAndLinksFromHTML convert s = s) ∧
    (∀ md, convert s = some md →
      extractTextAndLinksFromHTML convert s = trimString md) := by
  constructor
  · intro h
    simp [extractTextAndLinksFromHTML, h]
  · intro md h
    simp [extractTextAndLinksFromHTML, h]

theorem mem_extractAttachmentInfo (msg : GmailMessage)
    (d : AttachmentDescriptor) (hd : d ∈ extractAttachmentInfo msg) :
    ∃ mt fn b, d = mkAttachmentDescriptor mt fn b := by
  rcases msg with ⟨payload⟩
  cases payload with
  | none => simp [extractAttachmentInfo] at hd
  | some payload =>
    simp only [extractAttachmentInfo] at hd
    rw [extractAttachmentsFromParts_spec] at hd
    simp only [List.nil_append, List.mem_filterMap] at hd
    obtain ⟨p, _, hp⟩ := hd
    cases p with
    | mk mt fn body children =>
      cases body with
      | none => simp [descOf] at hp
      | some b =>
        by_cases hb : b.attachmentId = ""
        · simp [descOf, hb] at hp
        · simp only [descOf, hb, ne_eq, not_false_eq_true, if_true,
            reduceIte, Option.some.injEq] at hp
          exact ⟨mt, fn, b, hp.symm⟩

theorem isExtractableDocument_iff (mime file : String) :
    isExtractableDocument mime file = true ↔
      (mime = "application/pdf" ∨
       mime =
        "application/vnd.openxmlformats-officedocument.wordprocessingml.document" ∨
       mime = "text/plain" ∨
       strEndsWith (strToLower file) ".pdf" = true ∨
       strEndsWith (strToLower file) ".docx" = true ∨
       strEndsWith (strToLower file) ".txt" = true) := by
  unfold isExtractableDocument
  by_cases h1 : mime = "application/pdf" <;>
    by_cases h2 : mime =
      "application/vnd.openxmlformats-officedocument.wordprocessingml.document" <;>
      by_cases h3 : mime = "text/plain" <;>
        simp [h1, h2, h3, Bool.or_eq_true, or_assoc]

/-- Claim C10: in every descriptor produced by the attachment walk, the
`extractable` key is `some true` exactly when the declared MIME type is
PDF, the DOCX wordprocessingml type, or plain text, or the lowercased
(defaulted) filename ends in ".pdf", ".docx" or ".txt"; it is never
`some false` — for any other attachment the key is entirely absent
(`none`). -/
theorem claim10_extractable (msg : GmailMessage) (d : AttachmentDescriptor)
    (hd : d ∈ extractAttachmentInfo msg) :
    (d.extractable = some true ∨ d.extractable = none) ∧
    (d.extractable = some true ↔
      (d.mimeType = "application/pdf" ∨
       d.mimeType =
        "application/vnd.openxmlformats-officedocument.wordprocessingml.document" ∨
       d.mimeType = "text/plain" ∨
       strEndsWith (strToLower d.filename) ".pdf" = true ∨
       strEndsWith (strToLower d.filename) ".docx" = true ∨
       strEndsWith (strToLower d.filename) ".txt" = true)) := by
  obtain ⟨mt, fn, b, rfl⟩ := mem_extractAttachmentInfo msg d hd
  constructor
  · by_cases hx : isExtractableDocument mt
        (if fn = "" then "unnamed_attachment" else fn) = true
    · left; simp [mkAttachmentDescriptor, hx]
    · right; simp [mkAttachmentDescriptor, hx]
  · by_cases hx : isExtractableDocument mt
        (if fn = "" then "unnamed_attachment" else fn) = true
    · apply iff_of_true
      · simp [mkAttachmentDescriptor, hx]
      · have := (isExtractableDocument_iff mt
          (if fn = "" then "unnamed_attachment" else fn)).mp hx
        simpa [mkAttachmentDescriptor] using this
    · apply iff_of_false
      · simp [mkAttachmentDescriptor, hx]
      · intro hcon
        apply hx
        rw [isExtractableDocument_iff]
        simpa [mkAttachmentDescriptor] using hcon

/-- Claim C10 witness: the claim applied to a concrete message with one
PDF attachment part, whose descriptor carries `extractable = some
true`. -/
theorem claim10_witness :
    ((mkAttachmentDescriptor "application/pdf" "r.pdf"
        ⟨"a1", 3, ""⟩).extractable = some true ∨
     (mkAttachmentDescriptor "application/pdf" "r.pdf"
        ⟨"a1", 3, ""⟩).extractable = none) ∧
    ((mkAttachmentDescriptor "application/pdf" "r.pdf"
        ⟨"a1", 3, ""⟩).extractable = some true ↔
      ((mkAttachmentDescriptor "application/pdf" "r.pdf"
          ⟨"a1", 3, ""⟩).mimeType = "application/pdf" ∨
       (mkAttachmentDescriptor "application/pdf" "r.pdf"
          ⟨"a1", 3, ""⟩).mimeType =
        "application/vnd.openxmlformats-officedocument.wordprocessingml.document" ∨
       (mkAttachmentDescriptor "application/pdf" "r.pdf"
          ⟨"a1", 3, ""⟩).mimeType = "text/plain" ∨
       strEndsWith (strToLower (mkAttachmentDescriptor "application/pdf"
          "r.pdf" ⟨"a1", 3, ""⟩).filename) ".pdf" = true ∨
       strEndsWith (strToLower (mkAttachmentDescriptor "application/pdf"
          "r.pdf" ⟨"a1", 3, ""⟩).filename) ".docx" = true ∨
       strEndsWith (strToLower (mkAttachmentDescriptor "application/pdf"
          "r.pdf" ⟨"a1", 3, ""⟩).filename) ".txt" = true)) :=
  claim10_extractable
    ⟨some (.mk "multipart/mixed" "" none
      [.mk "application/pdf" "r.pdf" (some ⟨"a1", 3, ""⟩) []])⟩
    (mkAttachmentDescriptor "application/pdf" "r.pdf" ⟨"a1", 3, ""⟩)
    (by simp [extractAttachmentInfo, MessagePart.parts,
      extractAttachmentsFromParts, partAttachment])

end GmailMCP
